import Mathlib

/-!
Verification development for the nuclei-segmentation repository
(`src/main.py` and `src/models/UNet.py`).

The training/validation/test driver of `src/main.py` is embedded as a
state-passing functional program.  The externally supplied network
forward, loss criterion, gradient computation and optimizer step are out
of scope for the repository (they are library calls), so they appear as
abstract function parameters in an environment record; parameters,
optimizer state, gradient buffers and images are abstracted to `Nat`
tokens, and loss values are rationals.  Fallible Python operations
(division by zero) are modelled with `Option`, `none` standing for a
raised exception.  Progress-bar updates and log messages have no effect
on program state and are not modelled, except that expressions evaluated
inside them (such as `running_loss/len(train_loader)`) keep their
fallibility.
-/

namespace NucleiSeg

/-- A minibatch sample as produced by the data loaders: an abstract image
and label.  The `.to(device)` moves and the `LongTensor` cast of
`src/main.py` are identity in this model (device dispatch is out of
scope). -/
structure Batch where
  image : Nat
  label : Nat
deriving DecidableEq

/-- The mutable state of the `model`/`optimizer` pair threaded through
`src/main.py`: abstract parameter contents, abstract optimizer internal
state, the gradient buffers, and the train/eval mode flag toggled by
`model.train()` / `model.eval()`. -/
structure ModelState where
  params : Nat
  opt : Nat
  grads : Nat
  training : Bool
deriving DecidableEq

/-- The fields of the `config` module that `src/main.py` reads. -/
structure Config where
  n_epochs : Nat
  val_freq : Nat
  resume_from_epoch : Nat
  min_val_loss : ℚ
deriving DecidableEq

/-- The out-of-scope collaborators of `src/main.py`: the network forward
pass `model(image)`, the loss `criterion(output, label)`, the gradient
produced by `loss.backward()`, the parameter/optimizer update of
`optimizer.step()`, the configuration, and the two data loaders. -/
structure Env where
  cfg : Config
  forward : Nat → Nat → Nat
  criterion : Nat → Nat → ℚ
  gradOf : Nat → Batch → Nat
  stepOf : Nat → Nat → Nat → Nat × Nat
  train_batches : List Batch
  val_batches : List Batch

/-- The scalar loss `criterion(model(sample['image']), sample['label'])`
at the given parameters (lines 41 and 82 of `src/main.py`). -/
def lossOf (env : Env) (p : Nat) (sample : Batch) : ℚ :=
  env.criterion (env.forward p sample.image) sample.label

/-- The function `val` of `src/main.py` (lines 67–91): switch the model
to eval mode, accumulate `loss.item()` over the validation loader, then
— in the `for`/`else` epilogue, which also runs for an empty loader —
divide by `len(val_loader)` (a `ZeroDivisionError`, i.e. `none`, when
the loader is empty), switch back to train mode and return the mean
loss. -/
def val (env : Env) (model : ModelState) : Option (ℚ × ModelState) :=
  let model := { model with training := false }
  let val_loss : ℚ :=
    env.val_batches.foldl (fun acc sample => acc + lossOf env model.params sample) 0
  if env.val_batches.length = 0 then
    none
  else
    some (val_loss / (env.val_batches.length : ℚ), { model with training := true })

/-- One iteration of the inner minibatch loop of `train` (lines 39–46 of
`src/main.py`): compute the loss, `optimizer.zero_grad()`,
`loss.backward()` (which accumulates into the gradient buffers), and
`optimizer.step()`.  Returns the updated state and the loss added to
`running_loss`. -/
def trainStep (env : Env) (m : ModelState) (sample : Batch) : ModelState × ℚ :=
  let loss := lossOf env m.params sample
  let m := { m with grads := 0 }
  let m := { m with grads := m.grads + env.gradOf m.params sample }
  let po := env.stepOf m.params m.opt m.grads
  ({ m with params := po.1, opt := po.2 }, loss)

/-- The whole minibatch loop of one epoch (lines 35–46): fold `trainStep`
over the training loader, accumulating `running_loss`. -/
def runBatches (env : Env) (m : ModelState) : ModelState × ℚ :=
  env.train_batches.foldl
    (fun acc sample =>
      let r := trainStep env acc.1 sample
      (r.1, acc.2 + r.2))
    (m, 0)

/-- A checkpoint write performed by `utils.train_helpers`: either
`save_val_model(model, epoch, optimizer, val_loss, logger)` after an
improving validation, or `save_end_model(model, optimizer, logger)`
after the epoch loop. -/
inductive SaveEvent where
  | valCkpt (params opt : Nat) (epoch : Nat) (val_loss : ℚ)
  | endCkpt (params opt : Nat)
deriving DecidableEq

/-- The state of the `train` function between epochs: the model, the
running `min_val_loss`, and ghost logs of the checkpoint writes, the
epochs after which `val` was invoked, and the epochs whose minibatch
loop was executed. -/
structure TrainState where
  model : ModelState
  min_val_loss : ℚ
  saves : List SaveEvent
  valEpochs : List Nat
  epochsRun : List Nat
deriving DecidableEq

/-- The body of the epoch loop of `train` (lines 32–61 of `src/main.py`):
run the minibatch loop; the epilogue log evaluates
`running_loss/len(train_loader)` (a `ZeroDivisionError` for an empty
training loader); then, when `epoch % cfg.val_freq == 0` (itself a
`ZeroDivisionError` when `cfg.val_freq` is zero), run `model.eval()`,
`val(model)`, `model.train()`, and save an improving checkpoint, updating
`min_val_loss`, or skip saving. -/
def trainEpoch (env : Env) (s : TrainState) (epoch : Nat) : Option TrainState :=
  let mr := runBatches env s.model
  let m := mr.1
  if env.train_batches.length = 0 then
    none
  else if env.cfg.val_freq = 0 then
    none
  else if epoch % env.cfg.val_freq = 0 then
    (val env { m with training := false }).bind fun vm =>
      let val_loss := vm.1
      let m2 := { vm.2 with training := true }
      if val_loss < s.min_val_loss then
        some { model := m2, min_val_loss := val_loss,
               saves := s.saves ++ [.valCkpt m2.params m2.opt epoch val_loss],
               valEpochs := s.valEpochs ++ [epoch],
               epochsRun := s.epochsRun ++ [epoch] }
      else
        some { s with model := m2,
                      valEpochs := s.valEpochs ++ [epoch],
                      epochsRun := s.epochsRun ++ [epoch] }
  else
    some { s with model := m, epochsRun := s.epochsRun ++ [epoch] }

/-- The function `train` of `src/main.py` (lines 19–63): `model.train()`,
then the epoch loop over `range(resume_from_epoch, cfg.n_epochs)`, then
— in the `for`/`else` epilogue, reached whenever no exception was raised
— `save_end_model(model, optimizer, logger)`. -/
def train (env : Env) (model : ModelState) (resume_from_epoch : Nat)
    (min_val_loss : ℚ) : Option TrainState :=
  let model := { model with training := true }
  let init : TrainState :=
    { model := model, min_val_loss := min_val_loss,
      saves := [], valEpochs := [], epochsRun := [] }
  ((List.range' resume_from_epoch (env.cfg.n_epochs - resume_from_epoch)).foldlM
      (trainEpoch env) init).map
    (fun s => { s with saves := s.saves ++ [.endCkpt s.model.params s.model.opt] })

/-- The function `test` of `src/main.py` (lines 95–108): `model.eval()`,
one forward pass on the test image (whose result is only logged), then
`model.train()`. -/
def test (env : Env) (model : ModelState) (test_image : Nat) : ModelState :=
  let model := { model with training := false }
  let _prediction := env.forward model.params test_image
  { model with training := true }

/-! Helper lemmas shared by the claim theorems. -/

/-- Folding loss accumulation equals the sum of the mapped losses. -/
theorem foldl_add_losses (f : Batch → ℚ) (l : List Batch) :
    ∀ a : ℚ, l.foldl (fun acc sample => acc + f sample) a = a + (l.map f).sum := by
  induction l with
  | nil => intro a; simp
  | cons b t ih => intro a; simp [ih, add_assoc]

/-- A concrete environment used to instantiate the claim theorems. -/
def envA : Env :=
  { cfg := { n_epochs := 2, val_freq := 1, resume_from_epoch := 0, min_val_loss := 1000 },
    forward := fun p i => p + i,
    criterion := fun o lab => (o : ℚ) + (lab : ℚ),
    gradOf := fun p sample => p + sample.image,
    stepOf := fun p o g => (p + g, o + 1),
    train_batches := [⟨1, 2⟩],
    val_batches := [⟨3, 4⟩] }

/-- A concrete initial model state. -/
def m0 : ModelState := ⟨5, 0, 0, true⟩

/-- C10: `val` divides the accumulated loss by the number of validation
batches without a guard: on a non-empty validation loader it returns the
arithmetic mean of the per-batch losses, and on an empty validation
loader it raises `ZeroDivisionError` (modelled as `none`) instead of
returning a value. -/
theorem val_mean_unguarded (env : Env) (m : ModelState) :
    (env.val_batches = [] → val env m = none) ∧
    (env.val_batches ≠ [] →
      ∃ mo, val env m =
        some ((env.val_batches.map (lossOf env m.params)).sum /
          (env.val_batches.length : ℚ), mo)) := by
  constructor
  · intro h
    simp [val, h]
  · intro h
    refine ⟨{ m with training := true }, ?_⟩
    simp [val, List.length_eq_zero, h, foldl_add_losses]

/-- Witness for C10 at a concrete environment. -/
theorem val_mean_unguarded_witness :
    ({ envA with val_batches := [] } : Env).val_batches = [] ∧
      val { envA with val_batches := [] } m0 = none ∧
      envA.val_batches ≠ [] ∧
      ∃ mo, val envA m0 =
        some ((envA.val_batches.map (lossOf envA m0.params)).sum /
          (envA.val_batches.length : ℚ), mo) :=
  ⟨rfl, (val_mean_unguarded { envA with val_batches := [] } m0).1 rfl,
    by decide, (val_mean_unguarded envA m0).2 (by decide)⟩

/-- C2: the validation pass is gradient-free: `val` never touches the
gradient buffers, the parameters or the optimizer state — it only runs
forward passes and loss computations. -/
theorem val_no_gradient (env : Env) (m : ModelState) (l : ℚ) (mo : ModelState)
    (h : val env m = some (l, mo)) :
    mo.grads = m.grads ∧ mo.params = m.params ∧ mo.opt = m.opt := by
  simp only [val] at h
  split at h
  · exact absurd h (by simp)
  · rw [Option.some.injEq, Prod.mk.injEq] at h
    rw [← h.2]
    exact ⟨rfl, rfl, rfl⟩

/-- Witness for C2 at a concrete environment. -/
theorem val_no_gradient_witness :
    (⟨5, 0, 0, true⟩ : ModelState).grads = m0.grads ∧
      (⟨5, 0, 0, true⟩ : ModelState).params = m0.params ∧
      (⟨5, 0, 0, true⟩ : ModelState).opt = m0.opt :=
  val_no_gradient envA m0 12 ⟨5, 0, 0, true⟩ (by norm_num [val, envA, m0, lossOf])

/-- The minibatch fold never changes the train/eval flag. -/
theorem runBatches_training (env : Env) (m : ModelState) :
    (runBatches env m).1.training = m.training := by
  unfold runBatches
  have key : ∀ (l : List Batch) (acc : ModelState × ℚ),
      (l.foldl (fun acc sample =>
        let r := trainStep env acc.1 sample
        (r.1, acc.2 + r.2)) acc).1.training = acc.1.training := by
    intro l
    induction l with
    | nil => intro acc; rfl
    | cons b t ih => intro acc; rw [List.foldl_cons, ih]; rfl
  exact key env.train_batches (m, 0)

/-- Each epoch body hands back a model in training mode if given one. -/
theorem trainEpoch_training (env : Env) (s : TrainState) (e : Nat) (s2 : TrainState)
    (h : trainEpoch env s e = some s2) (hs : s.model.training = true) :
    s2.model.training = true := by
  simp only [trainEpoch] at h
  split at h
  · exact absurd h (by simp)
  · split at h
    · exact absurd h (by simp)
    · split at h
      · obtain ⟨vm, hvm, h⟩ := Option.bind_eq_some.mp h
        split at h
        · rw [Option.some.injEq] at h
          rw [← h]
        · rw [Option.some.injEq] at h
          rw [← h]
      · rw [Option.some.injEq] at h
        rw [← h]
        show (runBatches env s.model).1.training = true
        rw [runBatches_training]
        exact hs

/-- Invariant preservation through a fold in the Option monad. -/
theorem foldlM_option_inv {σ α : Type} (P : σ → Prop) (f : σ → α → Option σ)
    (hf : ∀ s a s2, f s a = some s2 → P s → P s2) :
    ∀ (l : List α) (s s2 : σ), l.foldlM f s = some s2 → P s → P s2 := by
  intro l
  induction l with
  | nil =>
    intro s s2 h hs
    simp only [List.foldlM_nil, Option.pure_def, Option.some.injEq] at h
    rw [← h]
    exact hs
  | cons a t ih =>
    intro s s2 h hs
    rw [List.foldlM_cons] at h
    cases hfa : f s a with
    | none => rw [hfa] at h; simp at h
    | some s1 =>
      rw [hfa] at h
      simp only [Option.bind_eq_bind, Option.some_bind] at h
      exact ih s1 s2 h (hf s a s1 hfa hs)

/-- C9: each of train, val and test switches the model back with
`model.train()` before returning, so after any of them completes
normally the model is in training mode. -/
theorem training_mode_on_return :
    (∀ env m r mn s, train env m r mn = some s → s.model.training = true) ∧
    (∀ env m l mo, val env m = some (l, mo) → mo.training = true) ∧
    (∀ env m img, (test env m img).training = true) := by
  refine ⟨?_, ?_, ?_⟩
  · intro env m r mn s h
    simp only [train, Option.map_eq_some'] at h
    obtain ⟨s0, hfold, hs⟩ := h
    have h0 : s0.model.training = true :=
      foldlM_option_inv (fun st => st.model.training = true) (trainEpoch env)
        (fun s1 a s2 hh hp => trainEpoch_training env s1 a s2 hh hp) _ _ s0 hfold rfl
    rw [← hs]
    exact h0
  · intro env m l mo h
    simp only [val] at h
    split at h
    · exact absurd h (by simp)
    · rw [Option.some.injEq, Prod.mk.injEq] at h
      rw [← h.2]
  · intro env m img
    rfl

/-- Witness for C9 at a concrete environment. -/
theorem training_mode_on_return_witness :
    (⟨⟨23, 2, 12, true⟩, 18, [SaveEvent.valCkpt 11 1 0 18, SaveEvent.endCkpt 23 2],
        [0, 1], [0, 1]⟩ : TrainState).model.training = true ∧
      (⟨5, 0, 0, true⟩ : ModelState).training = true ∧
      (test envA m0 7).training = true :=
  ⟨training_mode_on_return.1 envA m0 0 1000 _
      (by norm_num [train, trainEpoch, runBatches, trainStep, val, lossOf, envA, m0,
        List.range']),
    training_mode_on_return.2.1 envA m0 12 ⟨5, 0, 0, true⟩
      (by norm_num [val, envA, m0, lossOf]),
    training_mode_on_return.2.2 envA m0 7⟩

/-- On a non-empty validation loader, `val` returns the mean loss and the
model switched back to training mode. -/
theorem val_succeeds (env : Env) (hvb : env.val_batches ≠ []) (m : ModelState) :
    val env m = some
      (env.val_batches.foldl (fun acc sample => acc + lossOf env m.params sample) 0 /
        (env.val_batches.length : ℚ),
       { m with training := true }) := by
  have hl : ¬ env.val_batches.length = 0 := by
    simpa [List.length_eq_zero] using hvb
  simp only [val]
  rw [if_neg hl]

/-- Under a sane configuration each epoch body succeeds and logs its
epoch, validating exactly when `epoch % val_freq = 0`. -/
theorem trainEpoch_runs (env : Env) (hvf : env.cfg.val_freq ≠ 0)
    (htb : env.train_batches ≠ []) (hvb : env.val_batches ≠ [])
    (s : TrainState) (e : Nat) :
    ∃ s2, trainEpoch env s e = some s2 ∧
      s2.epochsRun = s.epochsRun ++ [e] ∧
      s2.valEpochs = s.valEpochs ++
        (if e % env.cfg.val_freq = 0 then [e] else []) := by
  have htl : ¬ env.train_batches.length = 0 := by
    simpa [List.length_eq_zero] using htb
  simp only [trainEpoch]
  rw [if_neg htl, if_neg hvf]
  by_cases hm : e % env.cfg.val_freq = 0
  · rw [if_pos hm, val_succeeds env hvb, if_pos hm]
    simp only [Option.some_bind]
    split
    · exact ⟨_, rfl, rfl, rfl⟩
    · exact ⟨_, rfl, rfl, rfl⟩
  · rw [if_neg hm, if_neg hm]
    exact ⟨_, rfl, rfl, by simp⟩

/-- Folding the epoch body over `range' r k` runs the epochs in order and
validates exactly at the multiples of `val_freq`. -/
theorem foldlM_trainEpoch_runs (env : Env) (hvf : env.cfg.val_freq ≠ 0)
    (htb : env.train_batches ≠ []) (hvb : env.val_batches ≠ []) :
    ∀ (k r : Nat) (s : TrainState),
      ∃ s2, (List.range' r k).foldlM (trainEpoch env) s = some s2 ∧
        s2.epochsRun = s.epochsRun ++ List.range' r k ∧
        s2.valEpochs = s.valEpochs ++
          (List.range' r k).filter (fun e => decide (e % env.cfg.val_freq = 0)) := by
  intro k
  induction k with
  | zero => intro r s; exact ⟨s, by simp, by simp, by simp⟩
  | succ n ih =>
    intro r s
    obtain ⟨s1, h1, he1, hv1⟩ := trainEpoch_runs env hvf htb hvb s r
    obtain ⟨s2, h2, he2, hv2⟩ := ih (r + 1) s1
    refine ⟨s2, ?_, ?_, ?_⟩
    · rw [List.range'_succ, List.foldlM_cons, h1]
      simpa using h2
    · rw [List.range'_succ, he2, he1]
      simp
    · rw [List.range'_succ, hv2, hv1, List.filter_cons]
      by_cases hm : r % env.cfg.val_freq = 0 <;> simp [hm]

/-- The state of `train` at loop entry for the concrete environment. -/
def initA : TrainState := ⟨⟨5, 0, 0, true⟩, 1000, [], [], []⟩

/-- The state after epoch 0 of the concrete run. -/
def s1A : TrainState := ⟨⟨11, 1, 6, true⟩, 18, [.valCkpt 11 1 0 18], [0], [0]⟩

/-- The result of the concrete training run. -/
def sFinA : TrainState :=
  ⟨⟨23, 2, 12, true⟩, 18, [.valCkpt 11 1 0 18, .endCkpt 23 2], [0, 1], [0, 1]⟩

/-- C1: train persists the best-performing and final model states: a
validation pass whose loss improves on the running minimum appends a
checkpoint of the model, optimizer, epoch and loss and updates the
minimum; a non-improving validation saves nothing and keeps the minimum;
and once the epoch loop finishes, the final model and optimizer state are
saved unconditionally. -/
theorem train_checkpointing :
    (∀ env s e s2, trainEpoch env s e = some s2 → e % env.cfg.val_freq = 0 →
      ∃ vl mo,
        val env { (runBatches env s.model).1 with training := false } = some (vl, mo) ∧
          (vl < s.min_val_loss →
            s2.saves = s.saves ++ [.valCkpt s2.model.params s2.model.opt e vl] ∧
              s2.min_val_loss = vl) ∧
          (¬ vl < s.min_val_loss →
            s2.saves = s.saves ∧ s2.min_val_loss = s.min_val_loss)) ∧
    (∀ env m r mn s, train env m r mn = some s →
      s.saves.getLast? = some (.endCkpt s.model.params s.model.opt)) := by
  constructor
  · intro env s e s2 h hm
    simp only [trainEpoch] at h
    split at h
    · exact absurd h (by simp)
    · split at h
      · exact absurd h (by simp)
      · obtain ⟨vm, hvm, h⟩ := Option.bind_eq_some.mp h
        refine ⟨vm.1, vm.2, by simpa using hvm, ?_, ?_⟩
        · intro hlt
          rw [if_pos hlt, Option.some.injEq] at h
          rw [← h]
          exact ⟨rfl, rfl⟩
        · intro hlt
          rw [if_neg hlt, Option.some.injEq] at h
          rw [← h]
          exact ⟨rfl, rfl⟩
  · intro env m r mn s h
    simp only [train, Option.map_eq_some'] at h
    obtain ⟨s0, hfold, hs⟩ := h
    rw [← hs]
    exact List.getLast?_concat s0.saves

/-- Witness for C1: epoch 0 of the concrete run improves on the initial
minimum and is checkpointed, and the concrete run ends with a final
checkpoint. -/
theorem train_checkpointing_witness :
    (∃ vl mo,
      val envA { (runBatches envA initA.model).1 with training := false } = some (vl, mo) ∧
        (vl < initA.min_val_loss →
          s1A.saves = initA.saves ++ [.valCkpt s1A.model.params s1A.model.opt 0 vl] ∧
            s1A.min_val_loss = vl) ∧
        (¬ vl < initA.min_val_loss →
          s1A.saves = initA.saves ∧ s1A.min_val_loss = initA.min_val_loss)) ∧
      sFinA.saves.getLast? = some (.endCkpt sFinA.model.params sFinA.model.opt) :=
  ⟨train_checkpointing.1 envA initA 0 s1A
      (by norm_num [trainEpoch, runBatches, trainStep, val, lossOf, envA, initA, s1A])
      (by norm_num [envA]),
    train_checkpointing.2 envA m0 0 1000 sFinA
      (by norm_num [train, trainEpoch, runBatches, trainStep, val, lossOf, envA, m0, sFinA,
        List.range'])⟩

/-- C7: validation is periodic with period `cfg.val_freq`: the epochs
after which `val` runs are exactly the executed epochs whose index is a
multiple of `val_freq`, and `val` runs nowhere else. -/
theorem validation_periodic (env : Env) (m : ModelState) (r : Nat) (mn : ℚ)
    (hvf : env.cfg.val_freq ≠ 0) (htb : env.train_batches ≠ [])
    (hvb : env.val_batches ≠ []) :
    ∃ s, train env m r mn = some s ∧
      s.epochsRun = List.range' r (env.cfg.n_epochs - r) ∧
      s.valEpochs = s.epochsRun.filter (fun e => decide (e % env.cfg.val_freq = 0)) := by
  obtain ⟨s0, h0, he, hv⟩ := foldlM_trainEpoch_runs env hvf htb hvb
    (env.cfg.n_epochs - r) r
    { model := { m with training := true }, min_val_loss := mn,
      saves := [], valEpochs := [], epochsRun := [] }
  refine ⟨{ s0 with saves := s0.saves ++ [.endCkpt s0.model.params s0.model.opt] }, ?_, ?_, ?_⟩
  · simp only [train]
    rw [h0]
    rfl
  · simpa using he
  · show s0.valEpochs = s0.epochsRun.filter _
    rw [hv, he]
    simp

/-- Witness for C7 at the concrete environment. -/
theorem validation_periodic_witness :
    envA.cfg.val_freq ≠ 0 ∧ envA.train_batches ≠ [] ∧ envA.val_batches ≠ [] ∧
      ∃ s, train envA m0 0 1000 = some s ∧
        s.epochsRun = List.range' 0 (envA.cfg.n_epochs - 0) ∧
        s.valEpochs = s.epochsRun.filter (fun e => decide (e % envA.cfg.val_freq = 0)) :=
  ⟨by decide, by decide, by decide,
    validation_periodic envA m0 0 1000 (by decide) (by decide) (by decide)⟩

/-- C8: train terminates for every resume epoch and epoch budget,
executing exactly `n_epochs - resume_from_epoch` (truncated, i.e.
`max 0 _`) epochs in strictly increasing order; with nothing to train it
still writes the final checkpoint. -/
theorem train_epoch_count (env : Env) (m : ModelState) (r : Nat) (mn : ℚ)
    (hvf : env.cfg.val_freq ≠ 0) (htb : env.train_batches ≠ [])
    (hvb : env.val_batches ≠ []) :
    ∃ s, train env m r mn = some s ∧
      s.epochsRun = List.range' r (env.cfg.n_epochs - r) ∧
      s.epochsRun.length = env.cfg.n_epochs - r ∧
      s.epochsRun.Pairwise (· < ·) ∧
      (env.cfg.n_epochs ≤ r →
        s.epochsRun = [] ∧
        s.saves.getLast? = some (.endCkpt s.model.params s.model.opt)) := by
  obtain ⟨s0, h0, he, hv⟩ := foldlM_trainEpoch_runs env hvf htb hvb
    (env.cfg.n_epochs - r) r
    { model := { m with training := true }, min_val_loss := mn,
      saves := [], valEpochs := [], epochsRun := [] }
  have hrun : s0.epochsRun = List.range' r (env.cfg.n_epochs - r) := by simpa using he
  refine ⟨{ s0 with saves := s0.saves ++ [.endCkpt s0.model.params s0.model.opt] },
    ?_, ?_, ?_, ?_, ?_⟩
  · simp only [train]
    rw [h0]
    rfl
  · exact hrun
  · show s0.epochsRun.length = _
    rw [hrun, List.length_range']
  · show s0.epochsRun.Pairwise (· < ·)
    rw [hrun]
    exact List.pairwise_lt_range' r (env.cfg.n_epochs - r)
  · intro hle
    have hz : env.cfg.n_epochs - r = 0 := Nat.sub_eq_zero_of_le hle
    constructor
    · show s0.epochsRun = []
      rw [hrun, hz]
      rfl
    · exact List.getLast?_concat s0.saves

/-- Witness for C8 at the concrete environment, resuming past the end of
the epoch budget. -/
theorem train_epoch_count_witness :
    envA.cfg.val_freq ≠ 0 ∧ envA.train_batches ≠ [] ∧ envA.val_batches ≠ [] ∧
      ∃ s, train envA m0 7 1000 = some s ∧
        s.epochsRun = List.range' 7 (envA.cfg.n_epochs - 7) ∧
        s.epochsRun.length = envA.cfg.n_epochs - 7 ∧
        s.epochsRun.Pairwise (· < ·) ∧
        (envA.cfg.n_epochs ≤ 7 →
          s.epochsRun = [] ∧
          s.saves.getLast? = some (.endCkpt s.model.params s.model.opt)) :=
  ⟨by decide, by decide, by decide,
    train_epoch_count envA m0 7 1000 (by decide) (by decide) (by decide)⟩

/-- The parsed CLI arguments of `src/main.py` (lines 113–123). -/
structure Args where
  phase : String
  load : Bool
deriving DecidableEq

/-- The argparse setup of lines 113–123: `--phase` is a string defaulting
to "train"; `--load` is a `store_true` flag (presence sets it to `True`)
whose default is overridden to `True` by `parser.set_defaults(load=True)`.
`loadPresent` says whether `--load` appears on the command line. -/
def parse_args (loadPresent : Bool) (phaseArg : Option String) : Args :=
  { phase := phaseArg.getD "train",
    load := if loadPresent then true else true }

/-- The dictionary stored at `cfg.model_path` and read by `torch.load`
(lines 136–140). -/
structure Checkpoint where
  model_state_dict : Nat
  optimizer_state_dict : Nat
  epoch : Nat
  val_loss : ℚ
deriving DecidableEq

/-- Lines 127–140 of `src/main.py`: take the model/optimizer and the
`resume_from_epoch`/`min_val_loss` defaults from the config file, then —
when `args.load` is set — replace all four with the values restored from
the checkpoint file. -/
def loadValues (cfg : Config) (archParams archOpt : Nat) (checkpoint : Checkpoint)
    (args : Args) : Nat × Nat × Nat × ℚ :=
  let model := archParams
  let optimizer := archOpt
  let resume_from_epoch := cfg.resume_from_epoch
  let min_val_loss := cfg.min_val_loss
  if args.load then
    (checkpoint.model_state_dict, checkpoint.optimizer_state_dict,
      checkpoint.epoch, checkpoint.val_loss)
  else
    (model, optimizer, resume_from_epoch, min_val_loss)

/-- Counterexample to C4: no CLI invocation parses `load` to `False`, so
no invocation skips the checkpoint restoration: `--load` is a
`store_true` flag and `set_defaults(load=True)` forces the flagless case
to `True` as well. -/
theorem cli_load_counterexample :
    ¬ ∃ (loadPresent : Bool) (phaseArg : Option String),
        (parse_args loadPresent phaseArg).load = false := by
  rintro ⟨lp, ph, h⟩
  cases lp <;> simp [parse_args] at h

/-- C4 (amended): restoration from the checkpoint file is unconditional:
every parsed invocation has `load = True`, and the model, optimizer,
`resume_from_epoch` and `min_val_loss` are always taken from the
checkpoint, never from the config-file defaults. -/
theorem cli_load_always (loadPresent : Bool) (phaseArg : Option String)
    (cfg : Config) (archParams archOpt : Nat) (checkpoint : Checkpoint) :
    (parse_args loadPresent phaseArg).load = true ∧
      loadValues cfg archParams archOpt checkpoint (parse_args loadPresent phaseArg) =
        (checkpoint.model_state_dict, checkpoint.optimizer_state_dict,
          checkpoint.epoch, checkpoint.val_loss) := by
  cases loadPresent <;> simp [parse_args, loadValues]

/-!
Embedding of `src/models/UNet.py`.

Tensors are represented by their NCHW shapes; each layer primitive is a
function on shapes that is undefined (`none`, a library error) where the
corresponding kernel would reject its input, together with an explicit
runtime state: the train/eval mode, the abstract network parameters, an
abstract RNG counter consumed by stochastic primitives (dropout draws a
fresh mask in training mode), and a ghost trace of the primitives
applied in order.
-/

/-- An NCHW tensor shape. -/
structure Shape where
  n : Nat
  c : Nat
  h : Nat
  w : Nat
deriving DecidableEq

/-- The primitive layer kinds occurring in `src/models/UNet.py`. -/
inductive Prim where
  | conv
  | relu
  | pool
  | dropout
  | convTranspose
  | interp
  | cat
deriving DecidableEq

/-- Runtime state threaded through a forward pass. -/
structure St where
  training : Bool
  params : Nat
  rng : Nat
  trace : List Prim
deriving DecidableEq

/-- Record the application of one primitive in the ghost trace. -/
def addT (st : St) (p : Prim) : St := { st with trace := st.trace ++ [p] }

/-- `nn.Conv2d(inC, outC, kernel_size=k)`: unpadded convolution, defined
when the input channels match and the kernel fits, shrinking each spatial
dimension by `k - 1`.  It reads the parameters and touches nothing. -/
def conv2d (inC outC k : Nat) (x : Shape) (st : St) : Option (Shape × St) :=
  if x.c = inC ∧ k ≤ x.h ∧ k ≤ x.w then
    some (⟨x.n, outC, x.h + 1 - k, x.w + 1 - k⟩, addT st .conv)
  else none

/-- `nn.ReLU(inplace=True)`: elementwise, shape-preserving. -/
def relu (x : Shape) (st : St) : Option (Shape × St) :=
  some (x, addT st .relu)

/-- `nn.MaxPool2d(kernel_size=2, stride=2)`: floor-halves the spatial
dimensions, defined when they are at least the kernel size. -/
def maxPool2 (x : Shape) (st : St) : Option (Shape × St) :=
  if 2 ≤ x.h ∧ 2 ≤ x.w then
    some (⟨x.n, x.c, x.h / 2, x.w / 2⟩, addT st .pool)
  else none

/-- `nn.Dropout(p)`: identity on shapes; in training mode it draws a
fresh random mask, modelled as consuming the RNG counter. -/
def dropoutL (x : Shape) (st : St) : Option (Shape × St) :=
  some (x, addT { st with rng := if st.training then st.rng + 1 else st.rng } .dropout)

/-- `nn.ConvTranspose2d(inC, outC, kernel_size=2, stride=2)`: doubles the
spatial dimensions. -/
def convTranspose2 (inC outC : Nat) (x : Shape) (st : St) : Option (Shape × St) :=
  if x.c = inC ∧ 1 ≤ x.h ∧ 1 ≤ x.w then
    some (⟨x.n, outC, 2 * x.h, 2 * x.w⟩, addT st .convTranspose)
  else none

/-- `F.interpolate(x, (th, tw), mode='bilinear', align_corners=False)`:
resizes the spatial dimensions to the (positive) target. -/
def interpolate (th tw : Nat) (x : Shape) (st : St) : Option (Shape × St) :=
  if 1 ≤ x.h ∧ 1 ≤ x.w ∧ 1 ≤ th ∧ 1 ≤ tw then
    some (⟨x.n, x.c, th, tw⟩, addT st .interp)
  else none

/-- `torch.cat([a, b], 1)`: concatenation along the channel dimension,
defined when the remaining dimensions agree. -/
def catC (a b : Shape) (st : St) : Option (Shape × St) :=
  if a.n = b.n ∧ a.h = b.h ∧ a.w = b.w then
    some (⟨a.n, a.c + b.c, a.h, a.w⟩, addT st .cat)
  else none

/-- `_DoubleConvBlock.forward` (lines 27–32 of `src/models/UNet.py`): two
unpadded convolutions, each followed by the ReLU activation. -/
def doubleConvBlock (inC outC k : Nat) (x : Shape) (st : St) : Option (Shape × St) :=
  (conv2d inC outC k x st).bind fun r1 =>
  (relu r1.1 r1.2).bind fun r2 =>
  (conv2d outC outC k r2.1 r2.2).bind fun r3 =>
  relu r3.1 r3.2

/-- `_EncoderBlock.forward` (lines 42–49): double conv, then dropout only
when the block was constructed with a nonzero `drop_p` (otherwise
`self.dropout` is `None` and the branch is skipped), then max-pool. -/
def encoderBlock (inC outC : Nat) (drop_p : ℚ) (x : Shape) (st : St) :
    Option (Shape × St) :=
  (doubleConvBlock inC outC 3 x st).bind fun r1 =>
  (if drop_p ≠ 0 then dropoutL r1.1 r1.2 else some r1).bind fun r2 =>
  maxPool2 r2.1 r2.2

/-- `_DecoderBlock.forward` (lines 58–63): double conv then transposed
convolution. -/
def decoderBlock (inC midC outC : Nat) (x : Shape) (st : St) : Option (Shape × St) :=
  (doubleConvBlock inC midC 3 x st).bind fun r1 =>
  convTranspose2 midC outC r1.1 r1.2

/-- The shapes kept alive for the skip connections after the encoder
path of `UNet.forward` (lines 84–87): `inp`, `enc1`, `enc2`, `enc3`. -/
structure EncOut where
  inp : Shape
  enc1 : Shape
  enc2 : Shape
  enc3 : Shape
  st : St
deriving DecidableEq

/-- The encoder path of `UNet.forward` (lines 84–87): four
`_EncoderBlock`s, all built by `UNet.__init__` with the default
`drop_p = 0`. -/
def unetEncoder (x : Shape) (st : St) : Option EncOut :=
  (encoderBlock 3 64 0 x st).bind fun inp =>
  (encoderBlock 64 128 0 inp.1 inp.2).bind fun enc1 =>
  (encoderBlock 128 256 0 enc1.1 enc1.2).bind fun enc2 =>
  (encoderBlock 256 512 0 enc2.1 enc2.2).bind fun enc3 =>
  some ⟨inp.1, enc1.1, enc2.1, enc3.1, enc3.2⟩

/-- One decoder stage with skip connection (lines 91–98, three times):
resize the skip tensor to the running tensor's spatial size, concatenate
along channels, and run the `_DecoderBlock`. -/
def skipStep (inC midC outC : Nat) (skip d : Shape) (st : St) : Option (Shape × St) :=
  (interpolate d.h d.w skip st).bind fun crop =>
  (catC d crop.1 crop.2).bind fun cc =>
  decoderBlock inC midC outC cc.1 cc.2

/-- `UNet.forward` as constructed by `UNet.__init__(n_classes)` (lines
67–105): the encoder path, the center decoder, the three decoder stages
with bilinearly-resized skip connections, the fourth skip into the final
double conv, the 1x1 output convolution to `n_classes` channels, and the
bilinear upsample back to the input's spatial size. -/
def unetForward (n_classes : Nat) (x : Shape) (st : St) : Option (Shape × St) :=
  (unetEncoder x st).bind fun e =>
  (decoderBlock 512 1024 512 e.enc3 e.st).bind fun center =>
  (skipStep 1024 512 256 e.enc3 center.1 center.2).bind fun dec3 =>
  (skipStep 512 256 128 e.enc2 dec3.1 dec3.2).bind fun dec2 =>
  (skipStep 256 128 64 e.enc1 dec2.1 dec2.2).bind fun dec1 =>
  (interpolate dec1.1.h dec1.1.w e.inp dec1.2).bind fun crop4 =>
  (catC dec1.1 crop4.1 crop4.2).bind fun cc4 =>
  (doubleConvBlock 128 64 3 cc4.1 cc4.2).bind fun fin =>
  (conv2d 64 n_classes 1 fin.1 fin.2).bind fun out =>
  interpolate x.h x.w out.1 out.2

/-- The trace of `_DoubleConvBlock`. -/
def doubleConvTrace : List Prim := [.conv, .relu, .conv, .relu]

/-- The trace of an `_EncoderBlock` with `drop_p = 0`. -/
def encTrace : List Prim := doubleConvTrace ++ [.pool]

/-- The trace of a `_DecoderBlock`. -/
def decTrace : List Prim := doubleConvTrace ++ [.convTranspose]

/-- The trace of a decoder stage with skip connection. -/
def skipTrace : List Prim := [.interp, .cat] ++ decTrace

/-- The trace of the encoder path. -/
def encPathTrace : List Prim := encTrace ++ encTrace ++ encTrace ++ encTrace

/-- The fixed trace of a successful `UNet.forward` pass. -/
def unetTrace : List Prim :=
  encPathTrace ++ decTrace ++ skipTrace ++ skipTrace ++ skipTrace ++
  [.interp, .cat] ++ doubleConvTrace ++ [.conv, .interp]

/-! Characterization lemmas: each layer's successful run determines its
output shape and acts on any state by appending its trace only. -/

theorem conv2d_run {i o k : Nat} {x : Shape} {st : St} {r : Shape × St}
    (h : conv2d i o k x st = some r) :
    r.1 = ⟨x.n, o, x.h + 1 - k, x.w + 1 - k⟩ ∧
    ∀ stB, conv2d i o k x stB = some (r.1, addT stB .conv) := by
  simp only [conv2d] at h
  split at h
  · next hg =>
    rw [Option.some.injEq] at h
    subst h
    exact ⟨rfl, fun stB => by simp only [conv2d, if_pos hg]⟩
  · exact absurd h (by simp)

theorem relu_run {x : Shape} {st : St} {r : Shape × St}
    (h : relu x st = some r) :
    r.1 = x ∧ ∀ stB, relu x stB = some (r.1, addT stB .relu) := by
  simp only [relu, Option.some.injEq] at h
  subst h
  exact ⟨rfl, fun stB => rfl⟩

theorem maxPool2_run {x : Shape} {st : St} {r : Shape × St}
    (h : maxPool2 x st = some r) :
    r.1 = ⟨x.n, x.c, x.h / 2, x.w / 2⟩ ∧
    ∀ stB, maxPool2 x stB = some (r.1, addT stB .pool) := by
  simp only [maxPool2] at h
  split at h
  · next hg =>
    rw [Option.some.injEq] at h
    subst h
    exact ⟨rfl, fun stB => by simp only [maxPool2, if_pos hg]⟩
  · exact absurd h (by simp)

theorem convTranspose2_run {i o : Nat} {x : Shape} {st : St} {r : Shape × St}
    (h : convTranspose2 i o x st = some r) :
    r.1 = ⟨x.n, o, 2 * x.h, 2 * x.w⟩ ∧
    ∀ stB, convTranspose2 i o x stB = some (r.1, addT stB .convTranspose) := by
  simp only [convTranspose2] at h
  split at h
  · next hg =>
    rw [Option.some.injEq] at h
    subst h
    exact ⟨rfl, fun stB => by simp only [convTranspose2, if_pos hg]⟩
  · exact absurd h (by simp)

theorem interpolate_run {th tw : Nat} {x : Shape} {st : St} {r : Shape × St}
    (h : interpolate th tw x st = some r) :
    r.1 = ⟨x.n, x.c, th, tw⟩ ∧
    ∀ stB, interpolate th tw x stB = some (r.1, addT stB .interp) := by
  simp only [interpolate] at h
  split at h
  · next hg =>
    rw [Option.some.injEq] at h
    subst h
    exact ⟨rfl, fun stB => by simp only [interpolate, if_pos hg]⟩
  · exact absurd h (by simp)

theorem catC_run {a b : Shape} {st : St} {r : Shape × St}
    (h : catC a b st = some r) :
    r.1.n = a.n ∧ ∀ stB, catC a b stB = some (r.1, addT stB .cat) := by
  simp only [catC] at h
  split at h
  · next hg =>
    rw [Option.some.injEq] at h
    subst h
    exact ⟨rfl, fun stB => by simp only [catC, if_pos hg]⟩
  · exact absurd h (by simp)

theorem doubleConvBlock_run {i o k : Nat} {x : Shape} {st : St} {r : Shape × St}
    (h : doubleConvBlock i o k x st = some r) :
    r.1.n = x.n ∧ r.1.c = o ∧
    ∀ stB, doubleConvBlock i o k x stB =
      some (r.1, { stB with trace := stB.trace ++ doubleConvTrace }) := by
  simp only [doubleConvBlock, Option.bind_eq_some] at h
  obtain ⟨r1, h1, r2, h2, r3, h3, h4⟩ := h
  obtain ⟨e1, t1⟩ := conv2d_run h1
  obtain ⟨e2, t2⟩ := relu_run h2
  obtain ⟨e3, t3⟩ := conv2d_run h3
  obtain ⟨e4, t4⟩ := relu_run h4
  refine ⟨by simp [e4, e3, e2, e1], by simp [e4, e3], fun stB => ?_⟩
  simp [doubleConvBlock, t1, t2, t3, t4, addT, doubleConvTrace]

theorem encoderBlock_run {i o : Nat} {x : Shape} {st : St} {r : Shape × St}
    (h : encoderBlock i o 0 x st = some r) :
    r.1.n = x.n ∧ r.1.c = o ∧
    ∀ stB, encoderBlock i o 0 x stB =
      some (r.1, { stB with trace := stB.trace ++ encTrace }) := by
  simp only [encoderBlock, ne_eq, not_true_eq_false, ite_false,
    Option.bind_eq_some] at h
  obtain ⟨r1, h1, r2, h2, h3⟩ := h
  obtain ⟨d1n, d1c, t1⟩ := doubleConvBlock_run h1
  rw [Option.some.injEq] at h2
  subst h2
  obtain ⟨e3, t3⟩ := maxPool2_run h3
  refine ⟨by simp [e3, d1n], by simp [e3, d1c], fun stB => ?_⟩
  simp [encoderBlock, t1, t3, addT, encTrace]

theorem decoderBlock_run {i mc o : Nat} {x : Shape} {st : St} {r : Shape × St}
    (h : decoderBlock i mc o x st = some r) :
    r.1.n = x.n ∧ r.1.c = o ∧
    ∀ stB, decoderBlock i mc o x stB =
      some (r.1, { stB with trace := stB.trace ++ decTrace }) := by
  simp only [decoderBlock, Option.bind_eq_some] at h
  obtain ⟨r1, h1, h2⟩ := h
  obtain ⟨d1n, d1c, t1⟩ := doubleConvBlock_run h1
  obtain ⟨e2, t2⟩ := convTranspose2_run h2
  refine ⟨by simp [e2, d1n], by simp [e2], fun stB => ?_⟩
  simp [decoderBlock, t1, t2, addT, decTrace]

theorem skipStep_run {i mc o : Nat} {skip d : Shape} {st : St} {r : Shape × St}
    (h : skipStep i mc o skip d st = some r) :
    r.1.n = d.n ∧ r.1.c = o ∧
    ∀ stB, skipStep i mc o skip d stB =
      some (r.1, { stB with trace := stB.trace ++ skipTrace }) := by
  simp only [skipStep, Option.bind_eq_some] at h
  obtain ⟨crop, h1, cc, h2, h3⟩ := h
  obtain ⟨e1, t1⟩ := interpolate_run h1
  obtain ⟨e2, t2⟩ := catC_run h2
  obtain ⟨d3n, d3c, t3⟩ := decoderBlock_run h3
  refine ⟨by simp [d3n, e2], d3c, fun stB => ?_⟩
  simp [skipStep, t1, t2, t3, addT, skipTrace, decTrace]

theorem unetEncoder_run {x : Shape} {st : St} {e : EncOut}
    (h : unetEncoder x st = some e) :
    e.enc3.n = x.n ∧
    ∀ stB, unetEncoder x stB =
      some ⟨e.inp, e.enc1, e.enc2, e.enc3,
        { stB with trace := stB.trace ++ encPathTrace }⟩ := by
  simp only [unetEncoder, Option.bind_eq_some] at h
  obtain ⟨inp, h1, enc1, h2, enc2, h3, enc3, h4, h5⟩ := h
  obtain ⟨n1, c1, t1⟩ := encoderBlock_run h1
  obtain ⟨n2, c2, t2⟩ := encoderBlock_run h2
  obtain ⟨n3, c3, t3⟩ := encoderBlock_run h3
  obtain ⟨n4, c4, t4⟩ := encoderBlock_run h4
  rw [Option.some.injEq] at h5
  subst h5
  refine ⟨by simp [n4, n3, n2, n1], fun stB => ?_⟩
  simp [unetEncoder, t1, t2, t3, t4, encPathTrace]

/-- Master lemma for `UNet.forward`: a successful run returns the
per-pixel class-score shape, and its effect on any starting state is to
append the fixed trace. -/
theorem unetForward_run {ncl : Nat} {x : Shape} {st : St} {y : Shape} {st2 : St}
    (h : unetForward ncl x st = some (y, st2)) :
    y = ⟨x.n, ncl, x.h, x.w⟩ ∧
    ∀ stB, unetForward ncl x stB =
      some (y, { stB with trace := stB.trace ++ unetTrace }) := by
  simp only [unetForward, Option.bind_eq_some] at h
  obtain ⟨e, he, center, hc, dec3, h3, dec2, h2, dec1, h1, crop4, h4,
    cc4, hcc, fin, hf, out, ho, hlast⟩ := h
  obtain ⟨hen, henT⟩ := unetEncoder_run he
  obtain ⟨hcn, hcc0, hcT⟩ := decoderBlock_run hc
  obtain ⟨h3n, h3c, h3T⟩ := skipStep_run h3
  obtain ⟨h2n, h2c, h2T⟩ := skipStep_run h2
  obtain ⟨h1n, h1c, h1T⟩ := skipStep_run h1
  obtain ⟨h4e, h4T⟩ := interpolate_run h4
  obtain ⟨hccn, hccT⟩ := catC_run hcc
  obtain ⟨hfn, hfc, hfT⟩ := doubleConvBlock_run hf
  obtain ⟨hoe, hoT⟩ := conv2d_run ho
  obtain ⟨hle, hlT⟩ := interpolate_run hlast
  have hy : y = ⟨x.n, ncl, x.h, x.w⟩ := by
    have : y = (⟨out.1.n, out.1.c, x.h, x.w⟩ : Shape) := hle
    rw [this, hoe]
    simp [hfn, hccn, h1n, h2n, h3n, hcn, hen]
  refine ⟨hy, fun stB => ?_⟩
  simp only [unetForward, henT, Option.some_bind, hcT, h3T, h2T, h1T, h4T,
    hccT, hfT, hoT, hlT]
  simp [addT, unetTrace, encPathTrace, skipTrace, decTrace, encTrace,
    doubleConvTrace]

/-- C3: for every input of shape (N, 3, H, W) on which the
encoder-decoder composition is defined, `UNet.forward` returns a tensor
with the same batch and spatial dimensions and `n_classes` channels: one
class-score vector per input pixel. -/
theorem unet_forward_shape (n_classes N H W : Nat) (st : St) (y : Shape) (st2 : St)
    (h : unetForward n_classes ⟨N, 3, H, W⟩ st = some (y, st2)) :
    y = ⟨N, n_classes, H, W⟩ :=
  (unetForward_run h).1

/-- Witness for C3 on a concrete 256x256 RGB input. -/
theorem unet_forward_shape_witness :
    unetForward 2 ⟨1, 3, 256, 256⟩ ⟨true, 5, 0, []⟩ =
      some (⟨1, 2, 256, 256⟩, ⟨true, 5, 0, unetTrace⟩) ∧
      (⟨1, 2, 256, 256⟩ : Shape) = ⟨1, 2, 256, 256⟩ :=
  ⟨by decide,
    unet_forward_shape 2 1 256 256 ⟨true, 5, 0, []⟩ ⟨1, 2, 256, 256⟩
      ⟨true, 5, 0, unetTrace⟩ (by decide)⟩

/-- Counterexample to C5: there is no input at all on which a dropout
primitive is applied during `UNet.forward` as constructed by
`UNet.__init__` — every `_EncoderBlock` keeps the default `drop_p = 0`,
so `self.dropout` is `None` and the dropout branch is never taken. -/
theorem unet_no_dropout :
    ¬ ∃ (n_classes : Nat) (x : Shape) (training : Bool) (params rng : Nat)
        (y : Shape) (st2 : St),
        unetForward n_classes x ⟨training, params, rng, []⟩ = some (y, st2) ∧
          Prim.dropout ∈ st2.trace := by
  rintro ⟨ncl, x, tr, p, rg, y, st2, h, hmem⟩
  have h2 := (unetForward_run h).2 ⟨tr, p, rg, []⟩
  rw [h, Option.some.injEq, Prod.mk.injEq] at h2
  rw [h2.2] at hmem
  simp [unetTrace, encPathTrace, skipTrace, decTrace, encTrace,
    doubleConvTrace] at hmem

/-- C5 (amended): the forward computation is a fixed composition of
convolution, activation, pooling, transposed-convolution, bilinear
resizing and channel-concatenation primitives — every successful run
applies exactly the same fixed primitive sequence — but no dropout
primitive is ever applied, since `UNet.__init__` builds every encoder
block with the default `drop_p = 0`. -/
theorem unet_fixed_composition (n_classes : Nat) (x : Shape) (st : St)
    (y : Shape) (st2 : St) (h : unetForward n_classes x st = some (y, st2)) :
    st2.trace = st.trace ++ unetTrace ∧
    Prim.dropout ∉ unetTrace ∧
    Prim.conv ∈ unetTrace ∧ Prim.pool ∈ unetTrace ∧
    Prim.convTranspose ∈ unetTrace ∧ Prim.interp ∈ unetTrace := by
  have hT := (unetForward_run h).2 st
  rw [h, Option.some.injEq, Prod.mk.injEq] at hT
  refine ⟨by rw [hT.2], by decide, by decide, by decide, by decide, by decide⟩

/-- Witness for the amended C5 on a concrete 256x256 RGB input. -/
theorem unet_fixed_composition_witness :
    (⟨true, 5, 0, unetTrace⟩ : St).trace = ([] : List Prim) ++ unetTrace ∧
      Prim.dropout ∉ unetTrace ∧
      Prim.conv ∈ unetTrace ∧ Prim.pool ∈ unetTrace ∧
      Prim.convTranspose ∈ unetTrace ∧ Prim.interp ∈ unetTrace :=
  unet_fixed_composition 2 ⟨1, 3, 256, 256⟩ ⟨true, 5, 0, []⟩ ⟨1, 2, 256, 256⟩
    ⟨true, 5, 0, unetTrace⟩ (by decide)

/-- C6: the forward pass is pure: it leaves the parameters, the RNG
state and the mode flag untouched, and its output is the same for every
starting state — in particular two successive evaluations on the same
input return the same output, and no stochastic primitive is consulted. -/
theorem unet_forward_pure (n_classes : Nat) (x : Shape) (st : St) (y : Shape)
    (st2 : St) (h : unetForward n_classes x st = some (y, st2)) :
    st2.params = st.params ∧ st2.rng = st.rng ∧ st2.training = st.training ∧
    ∀ stB : St, (unetForward n_classes x stB).map Prod.fst = some y := by
  obtain ⟨-, hT⟩ := unetForward_run h
  have h2 := hT st
  rw [h, Option.some.injEq, Prod.mk.injEq] at h2
  exact ⟨by rw [h2.2], by rw [h2.2], by rw [h2.2],
    fun stB => by rw [hT stB]; rfl⟩

/-- Witness for C6 on a concrete 256x256 RGB input. -/
theorem unet_forward_pure_witness :
    (⟨true, 5, 0, unetTrace⟩ : St).params = (⟨true, 5, 0, []⟩ : St).params ∧
      (⟨true, 5, 0, unetTrace⟩ : St).rng = (⟨true, 5, 0, []⟩ : St).rng ∧
      (⟨true, 5, 0, unetTrace⟩ : St).training = (⟨true, 5, 0, []⟩ : St).training ∧
      ∀ stB : St, (unetForward 2 ⟨1, 3, 256, 256⟩ stB).map Prod.fst =
        some ⟨1, 2, 256, 256⟩ :=
  unet_forward_pure 2 ⟨1, 3, 256, 256⟩ ⟨true, 5, 0, []⟩ ⟨1, 2, 256, 256⟩
    ⟨true, 5, 0, unetTrace⟩ (by decide)

end NucleiSeg
